import Mathlib

/-!
Verification of the two automation scripts in this repository:

* `scripts/gather-android-metalava-artifacts.py` ("Artifact Gatherer"),
  embedded below as `gatherMain` together with the target-list
  computation `resolveTargets`.
* `scripts/refresh-baselines.py` ("Baseline Refresher"), embedded below
  as `find_baseline_projects`, `processProject` and `refreshMain`.

The filesystem, the environment and the external subprocesses are
modelled explicitly: the filesystem is a finite map from absolute path
strings to file contents (plus a set of directories and a current
working directory), subprocess exit codes and the files created by the
test runner are supplied by oracles, and every externally visible step
is recorded in an event trace.
-/

/-! ## Path helper functions (POSIX-style path strings) -/

/-- The final path component of `p`: the characters after the last `/`.
Models Python `shutil.copy`'s use of the source's file name. -/
def basename (p : String) : String :=
  ⟨p.data.foldl (fun acc c => if c = '/' then [] else acc ++ [c]) []⟩

/-- A path is absolute when it starts with `/`. -/
def isAbsolute (p : String) : Bool :=
  match p.data with
  | [] => false
  | c :: _ => c = '/'

/-- Resolve a possibly relative path against a current working
directory, as the OS does for every path-taking call the script makes
after `os.chdir`. -/
def resolve (cwd p : String) : String :=
  if isAbsolute p then p else cwd ++ "/" ++ p

/-! ## Filesystem model -/

/-- Look up the content of the file at absolute path `k`. -/
def lookupFile (k : String) : List (String × String) → Option String
  | [] => none
  | (k', v) :: rest => if k' = k then some v else lookupFile k rest

/-- Create or overwrite the file at absolute path `k` with content `v`. -/
def setFile (k v : String) (files : List (String × String)) : List (String × String) :=
  (k, v) :: files.filter (fun kv => kv.1 ≠ k)

/-- The filesystem and process state the Artifact Gatherer runs in:
a current working directory, the set of existing directories and the
existing files (absolute path, content). -/
structure FS where
  cwd : String
  dirs : List String
  files : List (String × String)
deriving DecidableEq

/-- `Path.exists()`: true when the absolute path names a directory or a
file. -/
def pathExists (fs : FS) (p : String) : Bool :=
  fs.dirs.contains p || (lookupFile p fs.files).isSome

/-! ## Artifact Gatherer (`scripts/gather-android-metalava-artifacts.py`) -/

/-- The externally visible steps of the Artifact Gatherer. -/
inductive GEvent where
  | chdir (d : String)
  | build (goals : List String)
  | mkdirE (d : String)
  | copy (src dst : String)
deriving DecidableEq

/-- Outcome of a run of `main`: the error raised (if any), the events
performed before it, and the final filesystem state. -/
structure GatherResult where
  error : Option String
  trace : List GEvent
  fs : FS
deriving DecidableEq

/-- The four default stub srcjar targets
(`out/target/common/docs/{x}-stubs.srcjar`). -/
def stub_files_default : List String :=
  [ "out/target/common/docs/api-stubs-docs-non-updatable-stubs.srcjar",
    "out/target/common/docs/system-api-stubs-docs-non-updatable-stubs.srcjar",
    "out/target/common/docs/test-api-stubs-docs-non-updatable-stubs.srcjar",
    "out/target/common/docs/module-lib-api-stubs-docs-non-updatable-stubs.srcjar" ]

/-- The five JDiff api XML targets. -/
def jdiff_files : List String :=
  [ "out/target/common/obj/api.xml",
    "out/target/common/obj/system-api.xml",
    "out/target/common/obj/module-lib-api.xml",
    "out/target/common/obj/system-server-api.xml",
    "out/target/common/obj/test-api.xml" ]

/-- The four api-versions XML targets. -/
def api_version_files : List String :=
  [ "out/soong/lint/api_versions_public.xml",
    "out/soong/lint/api_versions_system.xml",
    "out/soong/lint/api_versions_module_lib.xml",
    "out/soong/lint/api_versions_system_server.xml" ]

/-- The target-list computation of `main` (source lines 61-102):
start from `[]`, append the `--stub-src-jar` values when any were given,
and when the list is still empty append the default stub, JDiff and
api-versions targets.  `stubSrcJar = []` models an absent
`--stub-src-jar` option (argparse yields `None`, which is falsy exactly
like an empty list). -/
def resolveTargets (stubSrcJar : List String) : List String :=
  let targets : List String := []
  let targets := if stubSrcJar ≠ [] then targets ++ stubSrcJar else targets
  if targets = [] then
    let stub_files := if stubSrcJar ≠ [] then stubSrcJar else stub_files_default
    targets ++ stub_files ++ jdiff_files ++ api_version_files
  else
    targets

/-- The copy loop of `main` (source lines 119-122): for each target,
`shutil.copy(t, output_dir)` copies the file at `t` (resolved against
the current working directory) to `outDir/basename t`, overwriting any
existing file of that name; a missing source raises. -/
def copyAll (outDir : String) : List String → FS → List GEvent → GatherResult
  | [], fs, tr => ⟨none, tr, fs⟩
  | t :: ts, fs, tr =>
    let src := resolve fs.cwd t
    match lookupFile src fs.files with
    | none => ⟨some ("No such file or directory: " ++ src), tr, fs⟩
    | some content =>
      let dst := outDir ++ "/" ++ basename t
      copyAll outDir ts { fs with files := setFile dst content fs.files }
        (tr ++ [GEvent.copy src dst])

/-- `main` of the Artifact Gatherer.  `top` is
`os.environ.get("ANDROID_BUILD_TOP")` (`none` when unset; the empty
string is falsy too), `directory` and `stubSrcJar` the parsed command
line, `buildExit` the exit code of the single `soong_ui.bash`
invocation (run with `check=True`, so a non-zero exit raises), and
`fs0` the filesystem at invocation time (its `cwd` is the directory the
user invoked the script from). -/
def gatherMain (top : Option String) (directory : String) (stubSrcJar : List String)
    (buildExit : Nat) (fs0 : FS) : GatherResult :=
  match top with
  | none => ⟨some "ANDROID_BUILD_TOP not specified", [], fs0⟩
  | some tp =>
    if tp = "" then ⟨some "ANDROID_BUILD_TOP not specified", [], fs0⟩
    else
      let fs1 : FS := { fs0 with cwd := tp }
      let tr1 := [GEvent.chdir tp]
      let outputDir := resolve tp directory
      if pathExists fs1 outputDir then
        ⟨some (outputDir ++ " exists, please delete or change"), tr1, fs1⟩
      else
        let targets := resolveTargets stubSrcJar
        let tr2 := tr1 ++ [GEvent.build targets]
        if buildExit ≠ 0 then
          ⟨some "subprocess.CalledProcessError", tr2, fs1⟩
        else
          let fs2 : FS := { fs1 with dirs := outputDir :: fs1.dirs }
          let tr3 := tr2 ++ [GEvent.mkdirE outputDir]
          copyAll outputDir targets fs2 tr3

/-! ## Baseline Refresher (`scripts/refresh-baselines.py`) -/

/-- `p` is a prefix of `s` (on character lists). -/
def prefixCheck : List Char → List Char → Bool
  | [], _ => true
  | _ :: _, [] => false
  | a :: as, b :: bs => a = b && prefixCheck as bs

/-- `p` occurs as a contiguous substring of `s` (on character lists). -/
def infixCheck (p : List Char) : List Char → Bool
  | [] => prefixCheck p []
  | c :: rest => prefixCheck p (c :: rest) || infixCheck p rest

/-- Python's `pat in line` substring test. -/
def strContains (line pat : String) : Bool :=
  infixCheck pat.data line.data

/-- `p` is a suffix of `s` (on character lists). -/
def suffixCheck (p s : List Char) : Bool :=
  prefixCheck p.reverse s.reverse

/-- The plugin-declaration marker line searched for in each
`build.gradle.kts` (source line 168). -/
def markerLine : String := "id(\"metalava-model-provider-plugin\")"

/-- A project that has a baseline file to update. -/
structure BaselineProject where
  name : String
  baseline_file : String
deriving DecidableEq

/-- `resource_path` (source lines 160-161):
`project_dir / "src" / "test" / "resources" / resource_path`. -/
def resource_path (project_dir rp : String) : String :=
  project_dir ++ "/src" ++ "/test" ++ "/resources" ++ "/" ++ rp

/-- The candidate project built for a marker-matching line of
`<metalava_dir>/<name>/build.gradle.kts` (source lines 169-173). -/
def candidateProject (metalava_dir name : String) : BaselineProject :=
  ⟨name, resource_path (metalava_dir ++ "/" ++ name) "model-test-suite-baseline.txt"⟩

/-- The fixed project appended unconditionally (source lines 175-178). -/
def metalavaProject (metalava_dir : String) : BaselineProject :=
  ⟨"metalava", resource_path (metalava_dir ++ "/metalava") "source-model-provider-baseline.txt"⟩

/-- `find_baseline_projects` (source lines 164-179).  The directory
layout is modelled by `subdirs`: the results of
`metalava_dir.glob("*/build.gradle.kts")` in glob order, each as the
subdirectory's name paired with the lines of its `build.gradle.kts`.
The source appends one candidate for every line containing the marker
(the line loop has no `break`), then appends the fixed project. -/
def find_baseline_projects (metalava_dir : String)
    (subdirs : List (String × List String)) : List BaselineProject :=
  (subdirs.flatMap (fun sub =>
    (sub.2.filter (fun line => strContains line markerLine)).map
      (fun _ => candidateProject metalava_dir sub.1)))
  ++ [metalavaProject metalava_dir]

/-- The parent directory of a path: everything before the final `/`. -/
def parentDir (p : String) : String :=
  ⟨((p.data.reverse.dropWhile (fun c => c ≠ '/')).drop 1).reverse⟩

/-- `test_reports_dir` (source line 206):
`metalava_out_dir / project_name / "build" / "test-results" / "test"`. -/
def reports_dir (metalava_out_dir name : String) : String :=
  metalava_out_dir ++ "/" ++ name ++ "/build" ++ "/test-results" ++ "/test"

/-- Whether path `q` is matched by `dir.glob("**/TEST-*.xml")`:
it lies (at any depth) under `dir` and its file name starts with
`TEST-` and ends with `.xml`. -/
def matchesTestReport (dir q : String) : Bool :=
  prefixCheck (dir ++ "/").data q.data
    && prefixCheck "TEST-".data (basename q).data
    && suffixCheck ".xml".data (basename q).data

/-- `Path.unlink`: remove the path from the filesystem (with
`missing_ok` semantics: removing an absent path is a no-op here; the
one unlink call that can see a missing path passes `missing_ok=True`). -/
def unlink (fs : List String) (q : String) : List String :=
  fs.filter (fun x => x ≠ q)

/-- The externally visible steps of the Baseline Refresher. -/
inductive REvent where
  | deleteReport (path : String)
  | deleteBaseline (path : String)
  | runTests (project : String) (created : List String) (exitCode : Nat)
  | genBaseline (project : String) (reports : List String) (baselineFile : String)
      (exitCode : Nat)
deriving DecidableEq

/-- Filesystem (set of existing file paths) plus the event trace so far. -/
structure RState where
  fs : List String
  trace : List REvent
deriving DecidableEq

/-- The body of the per-project loop (source lines 201-223):
delete every `TEST-*.xml` report under the project's results directory,
delete the baseline file (`missing_ok=True`), run the project's tests
(`subprocess.run` without `check=True`: the exit code is not checked;
the run creates the report files given by the `testCreated` oracle),
then re-glob the reports and invoke the baseline-generation command
(again without `check=True`), which rewrites the baseline file. -/
def processProject (metalava_out_dir : String) (testCreated : String → List String)
    (testExit genExit : String → Nat) (st : RState) (p : BaselineProject) : RState :=
  let dir := reports_dir metalava_out_dir p.name
  let reports := st.fs.filter (fun q => matchesTestReport dir q)
  let fs1 := reports.foldl unlink st.fs
  let tr1 := st.trace ++ reports.map REvent.deleteReport
  let fs2 := unlink fs1 p.baseline_file
  let tr2 := tr1 ++ [REvent.deleteBaseline p.baseline_file]
  let created := testCreated p.name
  let fs3 := fs2 ++ created
  let tr3 := tr2 ++ [REvent.runTests p.name created (testExit p.name)]
  let reports2 := fs3.filter (fun q => matchesTestReport dir q)
  let fs4 := fs3 ++ [p.baseline_file]
  let tr4 := tr3 ++ [REvent.genBaseline p.name reports2 p.baseline_file (genExit p.name)]
  ⟨fs4, tr4⟩

/-- The discovery-plus-filtering part of `main` (source lines 195-199):
when name filters were given, keep only the candidates whose name is in
the filter list, in discovery order. -/
def processedProjects (metalava_dir : String) (subdirs : List (String × List String))
    (filters : List String) : List BaselineProject :=
  let baseline_projects := find_baseline_projects metalava_dir subdirs
  if filters ≠ [] then
    baseline_projects.filter (fun p => filters.contains p.name)
  else
    baseline_projects

/-- `main` of the Baseline Refresher (source lines 182-223).  Returns
the final state together with the script's own exit code: the Python
`main` falls off the end (exit code 0) whatever the subprocess exit
codes were, since no `subprocess.run` call passes `check=True` and no
result is inspected. -/
def refreshMain (metalava_dir : String) (subdirs : List (String × List String))
    (filters : List String) (testCreated : String → List String)
    (testExit genExit : String → Nat) (fs0 : List String) : RState × Nat :=
  let metalava_out_dir := parentDir (parentDir metalava_dir) ++ "/out" ++ "/metalava"
  let baseline_projects := processedProjects metalava_dir subdirs filters
  (baseline_projects.foldl (processProject metalava_out_dir testCreated testExit genExit)
    ⟨fs0, []⟩, 0)

/-- Replay one recorded event's effect on the filesystem. -/
def applyEvent (fs : List String) : REvent → List String
  | REvent.deleteReport q => unlink fs q
  | REvent.deleteBaseline q => unlink fs q
  | REvent.runTests _ created _ => fs ++ created
  | REvent.genBaseline _ _ bf _ => fs ++ [bf]

/-- Replay a trace of recorded events. -/
def applyEvents (fs : List String) (es : List REvent) : List String :=
  es.foldl applyEvent fs

/-- The names of the projects whose test suite was run, in order. -/
def runTestsNames (tr : List REvent) : List String :=
  tr.filterMap (fun e =>
    match e with
    | REvent.runTests n _ _ => some n
    | _ => none)

/-- The names of the projects whose baseline-generation command was
invoked, in order. -/
def genBaselineNames (tr : List REvent) : List String :=
  tr.filterMap (fun e =>
    match e with
    | REvent.genBaseline n _ _ _ => some n
    | _ => none)

/-! ## The two claims under test that need a statement-level definition -/

/-- The copy-correctness claim for the Artifact Gatherer, as stated:
after a successful run, for every resolved target `t` the destination
directory contains a copy named `basename t` whose content is `t`'s
source content (so one copy of each resolved target, even when two
distinct targets share a filename). -/
def gatherCopiesClaim (tp directory : String) (stubSrcJar : List String)
    (buildExit : Nat) (fs0 : FS) : Prop :=
  (gatherMain (some tp) directory stubSrcJar buildExit fs0).error = none →
    ∀ t ∈ resolveTargets stubSrcJar,
      lookupFile (resolve tp directory ++ "/" ++ basename t)
          (gatherMain (some tp) directory stubSrcJar buildExit fs0).fs.files
        = lookupFile (resolve tp t) fs0.files

/-- The discovery claim for the Baseline Refresher, as stated:
`find_baseline_projects` returns exactly one candidate for each
subdirectory whose build file contains the marker line, plus the fixed
`metalava` project, with no duplicates. -/
def discoveryClaim (metalava_dir : String) (subdirs : List (String × List String)) : Prop :=
  find_baseline_projects metalava_dir subdirs =
    ((subdirs.filter (fun sub => sub.2.any (fun l => strContains l markerLine))).map
      (fun sub => candidateProject metalava_dir sub.1))
    ++ [metalavaProject metalava_dir]
  ∧ (find_baseline_projects metalava_dir subdirs).Nodup

/-! ## Helper lemmas: strings and the file map -/

theorem strAppend_cancel_left (a b c : String) (h : a ++ b = a ++ c) : b = c := by
  apply String.ext
  have hd := congrArg String.data h
  rw [String.data_append, String.data_append] at hd
  exact List.append_cancel_left hd

theorem lookupFile_filter_ne (k k' : String) (files : List (String × String))
    (h : k' ≠ k) :
    lookupFile k' (files.filter (fun kv => kv.1 ≠ k)) = lookupFile k' files := by
  induction files with
  | nil => rfl
  | cons kv rest ih =>
    simp only [ne_eq, decide_not] at ih
    by_cases hk : kv.1 = k
    · have hkk : ¬ k = k' := fun hh => h hh.symm
      simp [List.filter_cons, decide_not, hk, lookupFile, hkk, ih]
    · by_cases hk' : kv.1 = k'
      · simp [List.filter_cons, decide_not, hk, lookupFile, hk', h, ih]
      · simp [List.filter_cons, decide_not, hk, lookupFile, hk', ih]

theorem lookupFile_setFile_self (k v : String) (files : List (String × String)) :
    lookupFile k (setFile k v files) = some v := by
  simp [setFile, lookupFile]

theorem lookupFile_setFile_ne (k k' v : String) (files : List (String × String))
    (h : k' ≠ k) :
    lookupFile k' (setFile k v files) = lookupFile k' files := by
  have hne : ¬ k = k' := fun hh => h hh.symm
  have hf := lookupFile_filter_ne k k' files h
  simp only [ne_eq, decide_not] at hf
  simp [setFile, lookupFile, hne, decide_not, hf]

/-! ## Helper lemmas: the copy loop -/

theorem copyAll_cwd (outDir : String) (ts : List String) (fs : FS) (tr : List GEvent) :
    (copyAll outDir ts fs tr).fs.cwd = fs.cwd := by
  induction ts generalizing fs tr with
  | nil => rfl
  | cons t ts ih =>
    cases h : lookupFile (resolve fs.cwd t) fs.files with
    | none => simp [copyAll, h]
    | some c =>
      have := ih { fs with files := setFile (outDir ++ "/" ++ basename t) c fs.files }
        (tr ++ [GEvent.copy (resolve fs.cwd t) (outDir ++ "/" ++ basename t)])
      simpa [copyAll, h] using this

theorem copyAll_trace_mono (outDir : String) (ts : List String) (fs : FS)
    (tr : List GEvent) (e : GEvent) (he : e ∈ tr) :
    e ∈ (copyAll outDir ts fs tr).trace := by
  induction ts generalizing fs tr with
  | nil => exact he
  | cons t ts ih =>
    cases h : lookupFile (resolve fs.cwd t) fs.files with
    | none => simpa [copyAll, h] using he
    | some c =>
      have := ih { fs with files := setFile (outDir ++ "/" ++ basename t) c fs.files }
        (tr ++ [GEvent.copy (resolve fs.cwd t) (outDir ++ "/" ++ basename t)])
        (by simp [he])
      simpa [copyAll, h] using this

theorem copyAll_trace_events (outDir : String) (ts : List String) (fs : FS)
    (tr : List GEvent) (e : GEvent) (he : e ∈ (copyAll outDir ts fs tr).trace) :
    e ∈ tr ∨ ∃ s d, e = GEvent.copy s d := by
  induction ts generalizing fs tr with
  | nil => exact Or.inl he
  | cons t ts ih =>
    cases h : lookupFile (resolve fs.cwd t) fs.files with
    | none =>
      simp only [copyAll, h] at he
      exact Or.inl he
    | some c =>
      simp only [copyAll, h] at he
      rcases ih { fs with files := setFile (outDir ++ "/" ++ basename t) c fs.files }
          (tr ++ [GEvent.copy (resolve fs.cwd t) (outDir ++ "/" ++ basename t)]) he with
        h' | h'
      · rcases List.mem_append.mp h' with h'' | h''
        · exact Or.inl h''
        · refine Or.inr ⟨resolve fs.cwd t, outDir ++ "/" ++ basename t, ?_⟩
          simpa using h''
      · exact Or.inr h'

theorem copyAll_frame (outDir : String) (ts : List String) (fs : FS) (tr : List GEvent)
    (p : String) (hp : ∀ t ∈ ts, p ≠ outDir ++ "/" ++ basename t) :
    lookupFile p (copyAll outDir ts fs tr).fs.files = lookupFile p fs.files := by
  induction ts generalizing fs tr with
  | nil => rfl
  | cons t ts ih =>
    cases h : lookupFile (resolve fs.cwd t) fs.files with
    | none => simp [copyAll, h]
    | some c =>
      have h1 : p ≠ outDir ++ "/" ++ basename t := hp t (by simp)
      have h2 := ih { fs with files := setFile (outDir ++ "/" ++ basename t) c fs.files }
        (tr ++ [GEvent.copy (resolve fs.cwd t) (outDir ++ "/" ++ basename t)])
        (fun t' ht' => hp t' (by simp [ht']))
      simp only [copyAll, h]
      rw [h2]
      exact lookupFile_setFile_ne _ _ _ _ h1

theorem copyAll_lookup (outDir : String) (ts : List String) (fs : FS) (tr : List GEvent)
    (hnd : (ts.map basename).Nodup)
    (hdisj : ∀ t ∈ ts, ∀ t' ∈ ts, resolve fs.cwd t ≠ outDir ++ "/" ++ basename t')
    (hok : (copyAll outDir ts fs tr).error = none) :
    ∀ t ∈ ts, lookupFile (outDir ++ "/" ++ basename t) (copyAll outDir ts fs tr).fs.files
      = lookupFile (resolve fs.cwd t) fs.files := by
  induction ts generalizing fs tr with
  | nil => intro t ht; exact absurd ht (List.not_mem_nil t)
  | cons t0 ts ih =>
    cases h : lookupFile (resolve fs.cwd t0) fs.files with
    | none =>
      exfalso
      simp [copyAll, h] at hok
    | some c =>
      have hnd' := (List.nodup_cons.mp hnd).2
      have hhd : basename t0 ∉ ts.map basename := (List.nodup_cons.mp hnd).1
      have hok' : (copyAll outDir ts
          { fs with files := setFile (outDir ++ "/" ++ basename t0) c fs.files }
          (tr ++ [GEvent.copy (resolve fs.cwd t0) (outDir ++ "/" ++ basename t0)])).error
            = none := by
        simpa only [copyAll, h] using hok
      intro t ht
      rcases List.mem_cons.mp ht with rfl | hts
      · have hfr : ∀ t' ∈ ts,
            outDir ++ "/" ++ basename t ≠ outDir ++ "/" ++ basename t' := by
          intro t' ht' heq
          have hbt : basename t = basename t' := strAppend_cancel_left _ _ _ heq
          exact hhd (by rw [hbt]; exact List.mem_map_of_mem basename ht')
        simp only [copyAll, h]
        rw [copyAll_frame _ _ _ _ _ hfr, lookupFile_setFile_self]
      · have hih := ih { fs with files := setFile (outDir ++ "/" ++ basename t0) c fs.files }
          (tr ++ [GEvent.copy (resolve fs.cwd t0) (outDir ++ "/" ++ basename t0)]) hnd'
          (fun a ha b hb => hdisj a (List.mem_cons_of_mem _ ha) b (List.mem_cons_of_mem _ hb))
          hok' t hts
        have hsrc : resolve fs.cwd t ≠ outDir ++ "/" ++ basename t0 :=
          hdisj t (List.mem_cons_of_mem _ hts) t0 (List.mem_cons_self _ _)
        simp only [copyAll, h]
        rw [hih, lookupFile_setFile_ne _ _ _ _ hsrc]

/-! ## Helper lemmas: branch structure of `gatherMain` -/

theorem gatherMain_success_conditions (tp directory : String) (stub : List String)
    (be : Nat) (fs0 : FS)
    (hok : (gatherMain (some tp) directory stub be fs0).error = none) :
    tp ≠ "" ∧ pathExists { fs0 with cwd := tp } (resolve tp directory) = false ∧ be = 0 := by
  by_cases h1 : tp = ""
  · simp [gatherMain, h1] at hok
  · by_cases h2 : pathExists { fs0 with cwd := tp } (resolve tp directory) = true
    · simp [gatherMain, h1, h2] at hok
    · by_cases h3 : be = 0
      · exact ⟨h1, by simpa using h2, h3⟩
      · simp [gatherMain, h1, h2, h3] at hok

theorem gatherMain_success_eq (tp directory : String) (stub : List String) (fs0 : FS)
    (h1 : tp ≠ "") (h2 : pathExists { fs0 with cwd := tp } (resolve tp directory) = false) :
    gatherMain (some tp) directory stub 0 fs0 =
      copyAll (resolve tp directory) (resolveTargets stub)
        ⟨tp, resolve tp directory :: fs0.dirs, fs0.files⟩
        [GEvent.chdir tp, GEvent.build (resolveTargets stub),
          GEvent.mkdirE (resolve tp directory)] := by
  simp [gatherMain, h1, h2]

/-! ## Claims about the Artifact Gatherer -/

/-- C4: with no artifact-path overrides the resolved target list is the
fixed 13-entry default list, in the fixed order: the four stub srcjar
paths, then the five JDiff api XML paths, then the four api-versions
XML paths. -/
theorem gather_default_targets :
    resolveTargets [] =
      [ "out/target/common/docs/api-stubs-docs-non-updatable-stubs.srcjar",
        "out/target/common/docs/system-api-stubs-docs-non-updatable-stubs.srcjar",
        "out/target/common/docs/test-api-stubs-docs-non-updatable-stubs.srcjar",
        "out/target/common/docs/module-lib-api-stubs-docs-non-updatable-stubs.srcjar",
        "out/target/common/obj/api.xml",
        "out/target/common/obj/system-api.xml",
        "out/target/common/obj/module-lib-api.xml",
        "out/target/common/obj/system-server-api.xml",
        "out/target/common/obj/test-api.xml",
        "out/soong/lint/api_versions_public.xml",
        "out/soong/lint/api_versions_system.xml",
        "out/soong/lint/api_versions_module_lib.xml",
        "out/soong/lint/api_versions_system_server.xml" ] := rfl

/-- C5: with one or more explicit artifact-path overrides the resolved
target list is exactly the overrides, in the order given; in particular
every resolved target is one of the overrides, so none of the default
paths is used or built (unless itself passed as an override). -/
theorem gather_override_targets (over : List String) (h : over ≠ []) :
    resolveTargets over = over ∧ ∀ t ∈ resolveTargets over, t ∈ over := by
  have he : resolveTargets over = over := by simp [resolveTargets, h]
  exact ⟨he, fun t ht => he ▸ ht⟩

theorem gather_override_targets_witness :
    (["custom/stub.srcjar"] : List String) ≠ [] ∧
      (resolveTargets ["custom/stub.srcjar"] = ["custom/stub.srcjar"] ∧
        ∀ t ∈ resolveTargets ["custom/stub.srcjar"], t ∈ ["custom/stub.srcjar"]) :=
  ⟨by decide, gather_override_targets ["custom/stub.srcjar"] (by decide)⟩

/-- C3: when the destination directory already exists, the Artifact
Gatherer fails with the "exists, please delete or change" error, and no
build event is in its trace: the build-system subprocess is never
invoked, and no build work happens before the check. -/
theorem gather_dest_exists_fails (tp directory : String) (stub : List String)
    (be : Nat) (fs0 : FS) (htp : tp ≠ "")
    (hex : pathExists { fs0 with cwd := tp } (resolve tp directory) = true) :
    (gatherMain (some tp) directory stub be fs0).error
        = some (resolve tp directory ++ " exists, please delete or change")
      ∧ ∀ gs, GEvent.build gs ∉ (gatherMain (some tp) directory stub be fs0).trace := by
  simp [gatherMain, htp, hex]

theorem gather_dest_exists_fails_witness :
    ("/top" : String) ≠ "" ∧
    pathExists { (⟨"/home", ["/top", "/top/dest"], []⟩ : FS) with cwd := "/top" }
        (resolve "/top" "dest") = true ∧
    ((gatherMain (some "/top") "dest" [] 0 ⟨"/home", ["/top", "/top/dest"], []⟩).error
        = some (resolve "/top" "dest" ++ " exists, please delete or change")
      ∧ ∀ gs, GEvent.build gs
          ∉ (gatherMain (some "/top") "dest" [] 0 ⟨"/home", ["/top", "/top/dest"], []⟩).trace) :=
  ⟨by decide, by decide,
    gather_dest_exists_fails "/top" "dest" [] 0 ⟨"/home", ["/top", "/top/dest"], []⟩
      (by decide) (by decide)⟩

/-- C2 fails as stated: two targets sharing a filename overwrite each
other in the destination.  With targets `a/x` (content `A`) and `b/x`
(content `B`), after a successful run the destination holds a single
file `x` with content `B`, not a copy of `a/x`. -/
theorem gather_copies_counterexample :
    ¬ gatherCopiesClaim "/top" "dest" ["a/x", "b/x"] 0
        ⟨"/home", ["/top"], [("/top/a/x", "A"), ("/top/b/x", "B")]⟩ := by
  unfold gatherCopiesClaim
  decide

/-- C2 (amended): after a successful run, and provided the resolved
targets have pairwise-distinct filenames and no target's source path
coincides with a destination path, the destination directory contains
exactly one copy of each resolved target, named by its source filename
and holding that target's content.  (When two distinct targets share a
filename, the later copy overwrites the earlier one, as the
counterexample shows.) -/
theorem gather_copies_correct (tp directory : String) (stub : List String)
    (be : Nat) (fs0 : FS)
    (hnd : ((resolveTargets stub).map basename).Nodup)
    (hdisj : ∀ t ∈ resolveTargets stub, ∀ t' ∈ resolveTargets stub,
      resolve tp t ≠ resolve tp directory ++ "/" ++ basename t')
    (hok : (gatherMain (some tp) directory stub be fs0).error = none) :
    ∀ t ∈ resolveTargets stub,
      lookupFile (resolve tp directory ++ "/" ++ basename t)
          (gatherMain (some tp) directory stub be fs0).fs.files
        = lookupFile (resolve tp t) fs0.files := by
  obtain ⟨h1, h2, h3⟩ := gatherMain_success_conditions tp directory stub be fs0 hok
  subst h3
  rw [gatherMain_success_eq tp directory stub fs0 h1 h2] at hok ⊢
  exact copyAll_lookup (resolve tp directory) (resolveTargets stub)
    ⟨tp, resolve tp directory :: fs0.dirs, fs0.files⟩ _ hnd hdisj hok

theorem gather_copies_correct_witness :
    ((resolveTargets ["a/x", "b/y"]).map basename).Nodup ∧
    (gatherMain (some "/top") "dest" ["a/x", "b/y"] 0
        ⟨"/home", ["/top"], [("/top/a/x", "A"), ("/top/b/y", "B")]⟩).error = none ∧
    ∀ t ∈ resolveTargets ["a/x", "b/y"],
      lookupFile (resolve "/top" "dest" ++ "/" ++ basename t)
          (gatherMain (some "/top") "dest" ["a/x", "b/y"] 0
            ⟨"/home", ["/top"], [("/top/a/x", "A"), ("/top/b/y", "B")]⟩).fs.files
        = lookupFile (resolve "/top" t)
            (FS.mk "/home" ["/top"] [("/top/a/x", "A"), ("/top/b/y", "B")]).files :=
  ⟨by decide, by decide,
    gather_copies_correct "/top" "dest" ["a/x", "b/y"] 0
      ⟨"/home", ["/top"], [("/top/a/x", "A"), ("/top/b/y", "B")]⟩
      (by decide) (by decide) (by decide)⟩

/-- C9: `main` changes directory to the environment-provided root
before checking, creating or copying into the destination, so a
relative destination argument is resolved against that root: the whole
run is independent of the invocation-time working directory, and on
success the directory created is `top ++ "/" ++ directory`. -/
theorem gather_relative_dest (tp directory : String) (stub : List String) (be : Nat)
    (c c' : String) (d : List String) (f : List (String × String))
    (htp : tp ≠ "") (hrel : isAbsolute directory = false) :
    gatherMain (some tp) directory stub be ⟨c, d, f⟩
        = gatherMain (some tp) directory stub be ⟨c', d, f⟩
      ∧ ((gatherMain (some tp) directory stub be ⟨c, d, f⟩).error = none →
          GEvent.mkdirE (tp ++ "/" ++ directory)
            ∈ (gatherMain (some tp) directory stub be ⟨c, d, f⟩).trace) := by
  constructor
  · simp [gatherMain, htp]
  · intro hok
    obtain ⟨h1, h2, h3⟩ := gatherMain_success_conditions tp directory stub be ⟨c, d, f⟩ hok
    subst h3
    rw [gatherMain_success_eq tp directory stub ⟨c, d, f⟩ h1 h2]
    have hres : resolve tp directory = tp ++ "/" ++ directory := by
      simp [resolve, hrel]
    rw [← hres]
    exact copyAll_trace_mono _ _ _ _ _ (by simp)

theorem gather_relative_dest_witness :
    ("/top" : String) ≠ "" ∧ isAbsolute "dest" = false ∧
    (gatherMain (some "/top") "dest" ["a/x"] 0 ⟨"/home", ["/top"], [("/top/a/x", "A")]⟩
        = gatherMain (some "/top") "dest" ["a/x"] 0 ⟨"/other", ["/top"], [("/top/a/x", "A")]⟩
      ∧ ((gatherMain (some "/top") "dest" ["a/x"] 0
            ⟨"/home", ["/top"], [("/top/a/x", "A")]⟩).error = none →
          GEvent.mkdirE ("/top" ++ "/" ++ "dest")
            ∈ (gatherMain (some "/top") "dest" ["a/x"] 0
                ⟨"/home", ["/top"], [("/top/a/x", "A")]⟩).trace)) :=
  ⟨by decide, by decide,
    gather_relative_dest "/top" "dest" ["a/x"] 0 "/home" "/other" ["/top"]
      [("/top/a/x", "A")] (by decide) (by decide)⟩

/-- C10: the resolved target list is never empty (the non-empty
override list, or else the 13-entry default list), and every
build-system invocation recorded in a run's trace passes a non-empty
goal list. -/
theorem gather_build_goals_nonempty (over : List String) (top : Option String)
    (directory : String) (be : Nat) (fs0 : FS) :
    0 < (resolveTargets over).length ∧
      ∀ gs, GEvent.build gs ∈ (gatherMain top directory over be fs0).trace →
        0 < gs.length := by
  have hlen : 0 < (resolveTargets over).length := by
    by_cases h : over = []
    · subst h; decide
    · have he : resolveTargets over = over := by simp [resolveTargets, h]
      rw [he]
      exact List.length_pos.mpr h
  refine ⟨hlen, ?_⟩
  intro gs hgs
  cases top with
  | none => simp [gatherMain] at hgs
  | some tp =>
    by_cases h1 : tp = ""
    · simp [gatherMain, h1] at hgs
    · by_cases h2 : pathExists { fs0 with cwd := tp } (resolve tp directory) = true
      · simp [gatherMain, h1, h2] at hgs
      · by_cases h3 : be = 0
        · subst h3
          rw [gatherMain_success_eq tp directory over fs0 h1 (by simpa using h2)] at hgs
          rcases copyAll_trace_events _ _ _ _ _ hgs with h' | h'
          · simp at h'
            rw [h']
            exact hlen
          · obtain ⟨s, dd, hh⟩ := h'
            simp at hh
        · simp [gatherMain, h1, h2, h3] at hgs
          rw [hgs]
          exact hlen

theorem gather_build_goals_nonempty_witness :
    GEvent.build (resolveTargets ["a/x"])
        ∈ (gatherMain (some "/top") "dest" ["a/x"] 0
            ⟨"/home", ["/top"], [("/top/a/x", "A")]⟩).trace ∧
      0 < (resolveTargets ["a/x"]).length :=
  ⟨by decide,
    (gather_build_goals_nonempty ["a/x"] (some "/top") "dest" 0
        ⟨"/home", ["/top"], [("/top/a/x", "A")]⟩).2
      (resolveTargets ["a/x"]) (by decide)⟩

/-! ## Helper lemmas: project discovery -/

theorem strAppend_assoc (a b c : String) : a ++ b ++ c = a ++ (b ++ c) := by
  apply String.ext
  simp [String.data_append]

theorem candidateProject_ne_metalavaProject (md n : String) :
    candidateProject md n ≠ metalavaProject md := by
  intro h
  have hn : n = "metalava" := congrArg BaselineProject.name h
  subst hn
  have hb := congrArg BaselineProject.baseline_file h
  simp only [candidateProject, metalavaProject, resource_path, strAppend_assoc] at hb
  have hc := strAppend_cancel_left _ _ _ hb
  exact absurd hc (by decide)

theorem discovery_flatMap_eq (md : String) (subdirs : List (String × List String))
    (honce : ∀ sub ∈ subdirs,
      sub.2.countP (fun line => strContains line markerLine) ≤ 1) :
    (subdirs.flatMap (fun sub =>
      (sub.2.filter (fun line => strContains line markerLine)).map
        (fun _ => candidateProject md sub.1)))
    = ((subdirs.filter (fun sub => sub.2.any (fun l => strContains l markerLine))).map
        (fun sub => candidateProject md sub.1)) := by
  induction subdirs with
  | nil => rfl
  | cons sub rest ih =>
    have hrest := ih (fun s hs => honce s (List.mem_cons_of_mem _ hs))
    have hsub := honce sub (List.mem_cons_self _ _)
    rw [List.countP_eq_length_filter] at hsub
    by_cases hany : sub.2.any (fun l => strContains l markerLine) = true
    · have hpos : 0 < (sub.2.filter (fun line => strContains line markerLine)).length := by
        obtain ⟨x, hx, hpx⟩ := List.any_eq_true.mp hany
        exact List.length_pos.mpr (List.ne_nil_of_mem (List.mem_filter.mpr ⟨hx, hpx⟩))
      obtain ⟨l, hl⟩ := List.length_eq_one.mp (Nat.le_antisymm hsub hpos)
      rw [List.flatMap_cons, hl, List.filter_cons, if_pos hany]
      simp only [List.map_cons, List.map_nil, List.singleton_append]
      rw [hrest]
    · have hnil : sub.2.filter (fun line => strContains line markerLine) = [] := by
        rw [List.filter_eq_nil_iff]
        intro x hx hpx
        exact hany (List.any_eq_true.mpr ⟨x, hx, hpx⟩)
      rw [List.flatMap_cons, hnil, List.filter_cons, if_neg hany]
      simp only [List.map_nil, List.nil_append]
      exact hrest

/-! ## Claims about the Baseline Refresher -/

/-- C1 fails as stated: the line loop in `find_baseline_projects` has
no `break`, so a `build.gradle.kts` containing the marker line twice
yields the same candidate twice — a duplicate entry, and more than one
candidate for that subdirectory. -/
theorem discovery_counterexample :
    ¬ discoveryClaim "m"
        [("foo", ["id(\"metalava-model-provider-plugin\")",
                  "id(\"metalava-model-provider-plugin\")"])] := by
  unfold discoveryClaim
  decide

/-- C1 (amended): `find_baseline_projects` appends one candidate per
marker-containing line of each subdirectory's build file, plus the
always-appended fixed "metalava" project.  Provided each build file
contains the marker line on at most one line (and the subdirectory
names are distinct, as glob guarantees), the result is exactly one
candidate per marker-containing subdirectory plus the fixed project,
with no duplicates — even if the "metalava" subdirectory itself
contains the marker line. -/
theorem find_baseline_projects_correct (md : String)
    (subdirs : List (String × List String))
    (hnames : (subdirs.map Prod.fst).Nodup)
    (honce : ∀ sub ∈ subdirs,
      sub.2.countP (fun line => strContains line markerLine) ≤ 1) :
    find_baseline_projects md subdirs =
      ((subdirs.filter (fun sub => sub.2.any (fun l => strContains l markerLine))).map
        (fun sub => candidateProject md sub.1))
      ++ [metalavaProject md]
    ∧ (find_baseline_projects md subdirs).Nodup := by
  have heq : find_baseline_projects md subdirs =
      ((subdirs.filter (fun sub => sub.2.any (fun l => strContains l markerLine))).map
        (fun sub => candidateProject md sub.1))
      ++ [metalavaProject md] := by
    unfold find_baseline_projects
    rw [discovery_flatMap_eq md subdirs honce]
  refine ⟨heq, ?_⟩
  rw [heq]
  apply List.Nodup.append
  · have h1 : ((subdirs.filter
        (fun sub => sub.2.any (fun l => strContains l markerLine))).map Prod.fst).Nodup :=
      List.Nodup.sublist (List.Sublist.map Prod.fst (List.filter_sublist _)) hnames
    apply List.Nodup.of_map BaselineProject.name
    have h2 : (((subdirs.filter
          (fun sub => sub.2.any (fun l => strContains l markerLine))).map
        (fun sub => candidateProject md sub.1)).map BaselineProject.name)
        = (subdirs.filter
            (fun sub => sub.2.any (fun l => strContains l markerLine))).map Prod.fst := by
      rw [List.map_map]
      rfl
    rw [h2]
    exact h1
  · exact List.nodup_singleton _
  · intro a ha hb
    rw [List.mem_singleton] at hb
    subst hb
    obtain ⟨sub, hsub, hcan⟩ := List.mem_map.mp ha
    exact candidateProject_ne_metalavaProject md sub.1 hcan

theorem find_baseline_projects_correct_witness :
    ((([("foo", ["id(\"metalava-model-provider-plugin\")"]), ("bar", ["plugins"])]
        : List (String × List String)).map Prod.fst).Nodup) ∧
    (find_baseline_projects "m"
        [("foo", ["id(\"metalava-model-provider-plugin\")"]), ("bar", ["plugins"])] =
      (([("foo", ["id(\"metalava-model-provider-plugin\")"]), ("bar", ["plugins"])]
          : List (String × List String)).filter
            (fun sub => sub.2.any (fun l => strContains l markerLine))).map
        (fun sub => candidateProject "m" sub.1)
      ++ [metalavaProject "m"]
    ∧ (find_baseline_projects "m"
        [("foo", ["id(\"metalava-model-provider-plugin\")"]), ("bar", ["plugins"])]).Nodup) :=
  ⟨by decide,
    find_baseline_projects_correct "m"
      [("foo", ["id(\"metalava-model-provider-plugin\")"]), ("bar", ["plugins"])]
      (by decide) (by decide)⟩

/-! ## Helper lemmas: the per-project loop's trace -/

theorem runTestsNames_append (a b : List REvent) :
    runTestsNames (a ++ b) = runTestsNames a ++ runTestsNames b := by
  simp [runTestsNames]

theorem genBaselineNames_append (a b : List REvent) :
    genBaselineNames (a ++ b) = genBaselineNames a ++ genBaselineNames b := by
  simp [genBaselineNames]

theorem runTestsNames_deleteReports (qs : List String) :
    runTestsNames (qs.map REvent.deleteReport) = [] := by
  induction qs with
  | nil => rfl
  | cons q qs ih => simp [runTestsNames, List.filterMap_cons, ih]

theorem genBaselineNames_deleteReports (qs : List String) :
    genBaselineNames (qs.map REvent.deleteReport) = [] := by
  induction qs with
  | nil => rfl
  | cons q qs ih => simp [genBaselineNames, List.filterMap_cons, ih]

theorem processProject_runTestsNames (mod : String) (tc : String → List String)
    (te ge : String → Nat) (st : RState) (p : BaselineProject) :
    runTestsNames (processProject mod tc te ge st p).trace
      = runTestsNames st.trace ++ [p.name] := by
  simp only [processProject]
  rw [runTestsNames_append, runTestsNames_append, runTestsNames_append,
    runTestsNames_append, runTestsNames_deleteReports]
  simp [runTestsNames, List.filterMap_cons]

theorem processProject_genBaselineNames (mod : String) (tc : String → List String)
    (te ge : String → Nat) (st : RState) (p : BaselineProject) :
    genBaselineNames (processProject mod tc te ge st p).trace
      = genBaselineNames st.trace ++ [p.name] := by
  simp only [processProject]
  rw [genBaselineNames_append, genBaselineNames_append, genBaselineNames_append,
    genBaselineNames_append, genBaselineNames_deleteReports]
  simp [genBaselineNames, List.filterMap_cons]

theorem processList_runTestsNames (mod : String) (tc : String → List String)
    (te ge : String → Nat) (ps : List BaselineProject) (st : RState) :
    runTestsNames ((ps.foldl (processProject mod tc te ge) st).trace)
      = runTestsNames st.trace ++ ps.map BaselineProject.name := by
  induction ps generalizing st with
  | nil => simp
  | cons p ps ih =>
    rw [List.foldl_cons, ih, processProject_runTestsNames]
    simp

theorem processList_genBaselineNames (mod : String) (tc : String → List String)
    (te ge : String → Nat) (ps : List BaselineProject) (st : RState) :
    genBaselineNames ((ps.foldl (processProject mod tc te ge) st).trace)
      = genBaselineNames st.trace ++ ps.map BaselineProject.name := by
  induction ps generalizing st with
  | nil => simp
  | cons p ps ih =>
    rw [List.foldl_cons, ih, processProject_genBaselineNames]
    simp

/-- C6: with a non-empty filter list the Baseline Refresher processes
exactly the discovered candidates whose name appears in the filter
list, in discovery order: the processed list is a sublist of the
discovered list, membership in it is exactly "discovered and name in
the filters", a filter name matching no candidate changes nothing, and
the run's trace runs the tests of exactly the processed projects in
that order. -/
theorem refresh_filtering (md : String) (subdirs : List (String × List String))
    (filters : List String) (x : String) (tc : String → List String)
    (te ge : String → Nat) (fs0 : List String)
    (hne : filters ≠ [])
    (hx : ∀ p ∈ find_baseline_projects md subdirs, p.name ≠ x) :
    (processedProjects md subdirs filters).Sublist (find_baseline_projects md subdirs)
    ∧ (∀ p, p ∈ processedProjects md subdirs filters ↔
        p ∈ find_baseline_projects md subdirs ∧ p.name ∈ filters)
    ∧ processedProjects md subdirs (x :: filters) = processedProjects md subdirs filters
    ∧ runTestsNames (refreshMain md subdirs filters tc te ge fs0).1.trace
        = (processedProjects md subdirs filters).map BaselineProject.name := by
  refine ⟨?_, ?_, ?_, ?_⟩
  · simp [processedProjects, hne, List.filter_sublist]
  · intro p
    simp [processedProjects, hne, List.mem_filter]
  · have h1 : processedProjects md subdirs (x :: filters)
        = (find_baseline_projects md subdirs).filter
            (fun p => (x :: filters).contains p.name) := by
      simp [processedProjects]
    have h2 : processedProjects md subdirs filters
        = (find_baseline_projects md subdirs).filter
            (fun p => filters.contains p.name) := by
      simp [processedProjects, hne]
    rw [h1, h2]
    apply List.filter_congr
    intro p hp
    have hpx : ¬ p.name = x := hx p hp
    simp [List.contains_cons, hpx, Ne.symm hpx]
  · rw [refreshMain, processList_runTestsNames]
    simp [runTestsNames]

theorem refresh_filtering_witness :
    (["metalava"] : List String) ≠ [] ∧
    (∀ p ∈ find_baseline_projects "m" [("foo", ["id(\"metalava-model-provider-plugin\")"])],
      p.name ≠ "zzz") ∧
    ((processedProjects "m" [("foo", ["id(\"metalava-model-provider-plugin\")"])]
        ["metalava"]).Sublist
      (find_baseline_projects "m" [("foo", ["id(\"metalava-model-provider-plugin\")"])])
    ∧ (∀ p, p ∈ processedProjects "m" [("foo", ["id(\"metalava-model-provider-plugin\")"])]
          ["metalava"] ↔
        p ∈ find_baseline_projects "m" [("foo", ["id(\"metalava-model-provider-plugin\")"])]
          ∧ p.name ∈ ["metalava"])
    ∧ processedProjects "m" [("foo", ["id(\"metalava-model-provider-plugin\")"])]
          ("zzz" :: ["metalava"])
        = processedProjects "m" [("foo", ["id(\"metalava-model-provider-plugin\")"])]
            ["metalava"]
    ∧ runTestsNames (refreshMain "m" [("foo", ["id(\"metalava-model-provider-plugin\")"])]
          ["metalava"] (fun _ => []) (fun _ => 0) (fun _ => 0) []).1.trace
        = (processedProjects "m" [("foo", ["id(\"metalava-model-provider-plugin\")"])]
            ["metalava"]).map BaselineProject.name) :=
  ⟨by decide, by decide,
    refresh_filtering "m" [("foo", ["id(\"metalava-model-provider-plugin\")"])]
      ["metalava"] "zzz" (fun _ => []) (fun _ => 0) (fun _ => 0) []
      (by decide) (by decide)⟩

/-- C8: no per-project subprocess exit code is checked: for every
test-run and baseline-generation exit-code oracle, the script's own
exit code is 0, and every selected project is still fully processed —
the trace contains a test run and a baseline generation for exactly
the processed projects, in order, whatever the exit codes were. -/
theorem refresh_failures_ignored (md : String) (subdirs : List (String × List String))
    (filters : List String) (tc : String → List String) (te ge : String → Nat)
    (fs0 : List String) :
    (refreshMain md subdirs filters tc te ge fs0).2 = 0
    ∧ runTestsNames (refreshMain md subdirs filters tc te ge fs0).1.trace
        = (processedProjects md subdirs filters).map BaselineProject.name
    ∧ genBaselineNames (refreshMain md subdirs filters tc te ge fs0).1.trace
        = (processedProjects md subdirs filters).map BaselineProject.name := by
  refine ⟨rfl, ?_, ?_⟩
  · rw [refreshMain, processList_runTestsNames]
    simp [runTestsNames]
  · rw [refreshMain, processList_genBaselineNames]
    simp [genBaselineNames]

/-! ## Helper lemmas: replaying traces and clearing report files -/

theorem applyEvents_append (fs : List String) (a b : List REvent) :
    applyEvents fs (a ++ b) = applyEvents (applyEvents fs a) b := by
  simp [applyEvents, List.foldl_append]

theorem applyEvents_deleteReports (fs : List String) (qs : List String) :
    applyEvents fs (qs.map REvent.deleteReport) = qs.foldl unlink fs := by
  simp only [applyEvents, List.foldl_map]
  rfl

theorem unlink_subset (fs : List String) (q x : String) (h : x ∈ unlink fs q) : x ∈ fs :=
  (List.mem_filter.mp h).1

theorem mem_foldl_unlink (qs fs : List String) (x : String)
    (h : x ∈ qs.foldl unlink fs) : x ∈ fs ∧ x ∉ qs := by
  induction qs generalizing fs with
  | nil => exact ⟨h, by simp⟩
  | cons q qs ih =>
    obtain ⟨h1, h2⟩ := ih (unlink fs q) h
    have h3 : x ∈ fs ∧ ¬ x = q := by simpa [unlink, List.mem_filter] using h1
    exact ⟨h3.1, by simp [h2, h3.2]⟩

theorem runTests_not_in_head (qs : List String) (b : REvent) (t : List REvent)
    (nm : String) (created : List String) (ec : Nat) (post : List REvent)
    (hb : ∀ n c e, b ≠ REvent.runTests n c e)
    (h : REvent.runTests nm created ec :: post = qs.map REvent.deleteReport ++ b :: t) :
    False := by
  cases qs with
  | nil =>
    simp only [List.map_nil, List.nil_append, List.cons.injEq] at h
    exact hb nm created ec h.1.symm
  | cons q qs => simp at h

theorem split_in_project_events (qs : List String) (bfile : String)
    (pn : String) (cr : List String) (ex : Nat) (gr : List String) (gex : Nat)
    (as post : List REvent) (nm : String) (created : List String) (ec : Nat)
    (h : qs.map REvent.deleteReport
        ++ REvent.deleteBaseline bfile :: REvent.runTests pn cr ex ::
          REvent.genBaseline pn gr bfile gex :: []
        = as ++ REvent.runTests nm created ec :: post) :
    as = qs.map REvent.deleteReport ++ [REvent.deleteBaseline bfile]
      ∧ nm = pn ∧ created = cr ∧ ec = ex
      ∧ post = [REvent.genBaseline pn gr bfile gex] := by
  induction qs generalizing as with
  | nil =>
    cases as with
    | nil => simp at h
    | cons a as' =>
      simp only [List.map_nil, List.nil_append, List.cons_append, List.cons.injEq] at h
      obtain ⟨ha, h2⟩ := h
      cases as' with
      | nil =>
        simp only [List.nil_append, List.cons.injEq, REvent.runTests.injEq] at h2
        obtain ⟨hr, hg⟩ := h2
        exact ⟨by simp [ha], hr.1.symm, hr.2.1.symm, hr.2.2.symm, hg.symm⟩
      | cons a2 as'' =>
        simp only [List.cons_append, List.cons.injEq] at h2
        obtain ⟨ha2, h3⟩ := h2
        cases as'' with
        | nil => simp at h3
        | cons a3 as''' => simp at h3
  | cons q qs ih =>
    cases as with
    | nil =>
      simp only [List.map_cons, List.cons_append, List.nil_append, List.cons.injEq] at h
      exact absurd h.1 (by simp)
    | cons a as' =>
      simp only [List.map_cons, List.cons_append, List.cons.injEq] at h
      obtain ⟨ha, h'⟩ := h
      obtain ⟨h1, h2, h3, h4, h5⟩ := ih as' h'
      refine ⟨?_, h2, h3, h4, h5⟩
      rw [List.map_cons, ha, h1]
      simp

theorem processProject_coherent (mod : String) (tc : String → List String)
    (te ge : String → Nat) (st : RState) (p : BaselineProject) (fsI : List String)
    (hco : st.fs = applyEvents fsI st.trace) :
    (processProject mod tc te ge st p).fs
      = applyEvents fsI (processProject mod tc te ge st p).trace := by
  simp only [processProject]
  rw [applyEvents_append, applyEvents_append, applyEvents_append, applyEvents_append,
    ← hco, applyEvents_deleteReports]
  rfl

theorem processList_reports_cleared (mod : String) (tc : String → List String)
    (te ge : String → Nat) (ps : List BaselineProject) (st : RState) (fsI : List String)
    (hco : st.fs = applyEvents fsI st.trace)
    (hprev : ∀ pre post nm created ec,
      st.trace = pre ++ REvent.runTests nm created ec :: post →
      ∀ q, matchesTestReport (reports_dir mod nm) q = true → q ∉ applyEvents fsI pre) :
    ∀ pre post nm created ec,
      (ps.foldl (processProject mod tc te ge) st).trace
          = pre ++ REvent.runTests nm created ec :: post →
      ∀ q, matchesTestReport (reports_dir mod nm) q = true → q ∉ applyEvents fsI pre := by
  induction ps generalizing st with
  | nil => exact hprev
  | cons p ps ih =>
    rw [List.foldl_cons]
    apply ih (processProject mod tc te ge st p)
      (processProject_coherent mod tc te ge st p fsI hco)
    intro pre post nm created ec hsplit q hq
    simp only [processProject, List.append_assoc, List.cons_append, List.singleton_append,
      List.nil_append] at hsplit
    rcases List.append_eq_append_iff.mp hsplit with ⟨as, hpre, hW⟩ | ⟨cs, hst, hcs⟩
    · -- the split lands inside this project's own events
      obtain ⟨has, hnm, hcr, hec, hpost⟩ :=
        split_in_project_events _ _ _ _ _ _ _ _ _ _ _ _ hW
      subst hnm
      rw [hpre, has, applyEvents_append, ← hco, applyEvents_append,
        applyEvents_deleteReports]
      intro hmem
      obtain ⟨hq1, hq2⟩ := mem_foldl_unlink _ _ _ (unlink_subset _ _ _ hmem)
      exact hq2 (List.mem_filter.mpr ⟨hq1, hq⟩)
    · -- the split lands inside the trace accumulated so far
      cases cs with
      | nil =>
        rw [List.nil_append] at hcs
        exact (runTests_not_in_head _ _ _ _ _ _ _ (fun n c e => by simp) hcs).elim
      | cons c0 cs' =>
        simp only [List.cons_append, List.cons.injEq] at hcs
        obtain ⟨hc0, hcs'⟩ := hcs
        subst hc0
        exact hprev pre cs' nm created ec (by rw [hst]) q hq

/-- C7: for every processed project, every file matching the recursive
`TEST-*.xml` pattern under that project's test-results directory —
in particular every pre-existing one — is deleted before the project's
test-run subprocess is invoked: at any `runTests` event in the trace,
no matching report file remains in the replayed filesystem state. -/
theorem refresh_reports_deleted_before_tests (md : String)
    (subdirs : List (String × List String)) (filters : List String)
    (tc : String → List String) (te ge : String → Nat) (fs0 : List String)
    (pre post : List REvent) (nm : String) (created : List String) (ec : Nat)
    (hsplit : (refreshMain md subdirs filters tc te ge fs0).1.trace
        = pre ++ REvent.runTests nm created ec :: post) :
    ∀ q, matchesTestReport
        (reports_dir (parentDir (parentDir md) ++ "/out" ++ "/metalava") nm) q = true →
      q ∉ applyEvents fs0 pre := by
  simp only [refreshMain] at hsplit
  exact processList_reports_cleared
    (parentDir (parentDir md) ++ "/out" ++ "/metalava") tc te ge
    (processedProjects md subdirs filters) ⟨fs0, []⟩ fs0 rfl
    (fun pre post nm created ec h => by cases pre <;> simp at h)
    pre post nm created ec hsplit

theorem refresh_reports_deleted_before_tests_witness :
    (refreshMain "/a/b/c" [] [] (fun _ => []) (fun _ => 1) (fun _ => 1)
        ["/a/out/metalava/metalava/build/test-results/test/TEST-Foo.xml"]).1.trace
      = [REvent.deleteReport "/a/out/metalava/metalava/build/test-results/test/TEST-Foo.xml",
         REvent.deleteBaseline
           "/a/b/c/metalava/src/test/resources/source-model-provider-baseline.txt"]
        ++ REvent.runTests "metalava" [] 1 ::
          [REvent.genBaseline "metalava" []
            "/a/b/c/metalava/src/test/resources/source-model-provider-baseline.txt" 1]
    ∧ matchesTestReport
        (reports_dir (parentDir (parentDir "/a/b/c") ++ "/out" ++ "/metalava") "metalava")
        "/a/out/metalava/metalava/build/test-results/test/TEST-Foo.xml" = true
    ∧ "/a/out/metalava/metalava/build/test-results/test/TEST-Foo.xml"
        ∉ applyEvents ["/a/out/metalava/metalava/build/test-results/test/TEST-Foo.xml"]
          [REvent.deleteReport "/a/out/metalava/metalava/build/test-results/test/TEST-Foo.xml",
           REvent.deleteBaseline
             "/a/b/c/metalava/src/test/resources/source-model-provider-baseline.txt"] :=
  ⟨by decide, by decide,
    refresh_reports_deleted_before_tests "/a/b/c" [] [] (fun _ => []) (fun _ => 1)
      (fun _ => 1)
      ["/a/out/metalava/metalava/build/test-results/test/TEST-Foo.xml"]
      [REvent.deleteReport "/a/out/metalava/metalava/build/test-results/test/TEST-Foo.xml",
       REvent.deleteBaseline
         "/a/b/c/metalava/src/test/resources/source-model-provider-baseline.txt"]
      [REvent.genBaseline "metalava" []
        "/a/b/c/metalava/src/test/resources/source-model-provider-baseline.txt" 1]
      "metalava" [] 1 (by decide)
      "/a/out/metalava/metalava/build/test-results/test/TEST-Foo.xml" (by decide)⟩
